import Mathlib

/-!
Verification of the markup parsing and substitution engine of
ProgramMailAssembler (src/ProgramMailAssembler.py).

Strings of the Python source are embedded as `List Char`.  Python's
regular-expression calls are embedded as executable Lean functions that
reproduce the backtracking behaviour of the concrete patterns appearing in
the source (all of them are anchored, with lazy quantifiers whose search
order is made explicit below).  Loops of the source whose termination is not
structural are embedded with an explicit fuel parameter returning an
`Option`/result type in which fuel exhaustion is distinguishable from every
result of the source.
-/

/-- Characters matched by Python's `\s` on the ASCII inputs the program
processes: space, tab, newline, carriage return, vertical tab, form feed. -/
def isPyWs (c : Char) : Bool :=
  c == ' ' || c == '\t' || c == '\n' || c == '\r' || c == '\x0b' || c == '\x0c'

/-- Lowercase a string, character by character (Python `str.lower` on the
ASCII inputs the program processes). -/
def toLowerL (l : List Char) : List Char := l.map Char.toLower

/-- Python `str.strip()`: remove leading and trailing whitespace. -/
def pyStrip (l : List Char) : List Char :=
  ((l.dropWhile isPyWs).reverse.dropWhile isPyWs).reverse

/-- Does `s` start with `pat`? (used to embed Python `str.find`). -/
def startsWithL : List Char → List Char → Bool
  | [], _ => true
  | _ :: _, [] => false
  | p :: ps, c :: cs => p == c && startsWithL ps cs

/-- Python `s.find(pat)` as an index: the least index at which `pat` occurs
in `s`, `none` when `find` returns `-1`. -/
def findSubIdx (pat s : List Char) : Option Nat :=
  (List.range (s.length + 1)).find? (fun i => startsWithL pat (s.drop i))

/-- A character allowed inside the angle-bracket regex character class
`[^<>\[\]]` of `LocateNextDelimiter` (src lines 387-388). -/
def angleFree (c : Char) : Bool :=
  !(c == '<' || c == '>' || c == '[' || c == ']')

/-- The first regex of `LocateNextDelimiter` (src line 387):
`re.match("^[^<]*?<([^<>\[\]]*?)>", s)`.  The lazy prefix `[^<]*?` is forced
to stop at the first `<` of `s`; the lazy group then extends over characters
outside `<>[]` and must be closed by `>` before any other delimiter
character appears.  Returns the captured group and the end position
`m.regs[0][1]` of the whole match, or `none` when the regex does not match. -/
def m1Match (s : List Char) : Option (List Char × Nat) :=
  match s.findIdx? (fun c => c == '<') with
  | none => none
  | some i =>
    let rest := s.drop (i + 1)
    let content := rest.takeWhile angleFree
    match rest.drop content.length with
    | '>' :: _ => some (content, i + 1 + content.length + 1)
    | _ => none

/-- The second regex of `LocateNextDelimiter` (src line 388):
`re.match("^[^\[]*?\[\[([^<>\[\]]]*?)]", s)`.  The lazy prefix `[^\[]*?` is
forced to stop at the first `[` of `s`, which must start a literal `[[`; the
group is one character of the class `[^<>\[\]]` followed by `]*?` (lazily,
zero `]`s first), and the pattern closes with a literal `]`.  So the regex
matches exactly when the text after the first `[` looks like
`[[c]`, with `c` outside `<>[]`.  Returns the end position of the match. -/
def m2Match (s : List Char) : Option Nat :=
  match s.findIdx? (fun c => c == '[') with
  | none => none
  | some i =>
    match s.drop i with
    | '[' :: '[' :: c :: ']' :: _ => if angleFree c then some (i + 4) else none
    | _ => none

/-- Embeds `LocateNextDelimiter` (src lines 382-408).  Empty input yields
`("", "")`; otherwise both regexes are tried and the one whose match ends
strictly earliest wins, the double-bracket branch winning the `else` of
`if m1.regs[0][1] < m2.regs[0][1]` (src line 405).  The Python `None` error
value is never produced by the source, so the delimiter is a plain string. -/
def LocateNextDelimiter (s : List Char) : List Char × List Char :=
  if s.isEmpty then ([], [])
  else
    match m1Match s, m2Match s with
    | none, none => ([], [])
    | some (g, e1), none => (g, s.drop e1)
    | none, some e2 => ("[[".toList, s.drop e2)
    | some (g, e1), some e2 =>
      if e1 < e2 then (g, s.drop e1) else ("[[".toList, s.drop e2)

/-- Embeds `re.match("^([a-zA-Z0-9])\s", delim)` of `CheckBalance`
(src lines 349-351): when the delimiter starts with a single alphanumeric
character followed by whitespace, only that character is pushed. -/
def pushName (delim : List Char) : List Char :=
  match delim with
  | c1 :: c2 :: _ => if c1.isAlphanum && isPyWs c2 then [c1] else delim
  | _ => delim

/-- One pass of the `while s:` loop of `CheckBalance` (src lines 337-376),
with fuel.  The Python list used as a stack (append/pop at the end) is
embedded as a Lean list with its head as the top.  `none` is fuel
exhaustion (the source loop consumes at least two characters per
iteration, so `s.length + 1` fuel always suffices). -/
def checkBalanceGo (fuel : Nat) (s : List Char) (nesting : List (List Char)) :
    Option Bool :=
  match fuel with
  | 0 => none
  | f + 1 =>
    if s.isEmpty then some true
    else
      let (delim, s') := LocateNextDelimiter s
      if delim.isEmpty && !nesting.isEmpty then some false
      else if delim.isEmpty then some true
      else if delim = "[[".toList || delim.head? ≠ some '/' then
        checkBalanceGo f s' (pushName delim :: nesting)
      else
        match nesting with
        | [] => some false
        | top :: rest =>
          if delim = "]]".toList then
            if top = "[[".toList then checkBalanceGo f s' rest else some false
          else if delim.head? = some '/' then
            if top = delim.drop 1 then checkBalanceGo f s' rest else some false
          else
            checkBalanceGo f s' rest

/-- Embeds `CheckBalance` (src lines 329-376): newlines are replaced by
spaces, then the document is scanned delimiter by delimiter against a
nesting stack.  `some true`/`some false` are the source's `True`/`False`. -/
def CheckBalance (s : List Char) : Option Bool :=
  let s' := s.map (fun c => if c = '\n' then ' ' else c)
  checkBalanceGo (s'.length + 1) s' []

/-- Embeds the `Node` class (src lines 251-324).  Python stores one
dynamically-typed field `_value` which is a string or a list of nodes; the
embedding uses two optional fields so that the leaf-or-interior invariant is
a statable property rather than a consequence of the representation. -/
inductive Node where
  | mk (key : List Char) (textVal : Option (List Char)) (childVal : Option (List Node))

/-- The `Key` property (src lines 283-285). -/
def Node.key : Node → List Char
  | .mk k _ _ => k

def Node.textVal : Node → Option (List Char)
  | .mk _ t _ => t

def Node.childVal : Node → Option (List Node)
  | .mk _ _ c => c

/-- The `Text` property (src lines 293-297): the raw string when the value
is a string, `""` otherwise. -/
def Node.Text (n : Node) : List Char := n.textVal.getD []

/-- The `List` property (src lines 287-291): the child list when the value
is a list, `[]` otherwise. -/
def Node.ListC (n : Node) : List Node := n.childVal.getD []

/-- The constructor call `Node(key, value)` with a string value
(src lines 252-257). -/
def Node.ofText (key text : List Char) : Node := Node.mk key (some text) none

/-- Embeds the string branch of `Node.__getitem__` (src lines 268-275): the
text of the first child whose key equals the lowercased query (the stored
key is compared as stored, only the query is lowercased); `none` embeds the
`assert False` reached when no child matches. -/
def Node.getStr (n : Node) (index : List Char) : Option (List Char) :=
  (n.ListC.find? (fun c => decide (c.key = toLowerL index))).map Node.Text

/-- The leaf-or-interior invariant of the spec's data model: a node carries
either raw text or an ordered child list, never both and never neither, and
the same holds for every child. -/
inductive WF : Node → Prop where
  | leaf : ∀ k t, WF (Node.mk k (some t) none)
  | interior : ∀ k l, (∀ c ∈ l, WF c) → WF (Node.mk k none (some l))

/-- A character of the tag-name class `[a-zA-Z0-9 ]` of
`FindAnyBracketedText` (src line 450). -/
def isNameChar (c : Char) : Bool := c.isAlphanum || c == ' '

/-- Does the closing tag `</name>` occur in `s` at position `e`? -/
def closesAt (s name : List Char) (e : Nat) : Bool :=
  decide ((s.drop e).take (name.length + 3) = '<' :: '/' :: (name ++ ['>']))

/-- One backtracking step of the greedy group `([a-zA-Z0-9 ]+)` of the
pattern `^(.*?)<([a-zA-Z0-9 ]+)[^>]*?>(.*?)<\/\2>` (src line 450), at start
position `p`, with `run` the maximal name run after `<`: try the name of
length `run - k`; `[^>]*?>` then consumes exactly up to the first `>` at or
after the name's end, and the lazy `(.*?)` stops at the earliest following
closing tag `</name>`. -/
def tryNameLen (s : List Char) (p run k : Nat) :
    Option (List Char × List Char × Nat) :=
  let nameLen := run - k
  let name := (s.drop (p + 1)).take nameLen
  let q := p + 1 + nameLen
  match (List.range (s.length + 1)).find?
      (fun r => decide (q ≤ r) && decide (s.get? r = some '>')) with
  | none => none
  | some r =>
    match (List.range (s.length + 1)).find?
        (fun e => decide (r + 1 ≤ e) && closesAt s name e) with
    | none => none
    | some e => some (name, (s.drop (r + 1)).take (e - (r + 1)), e + nameLen + 3)

/-- Try the pattern of `FindAnyBracketedText` with the lazy leading `(.*?)`
stopped at position `p`: `p` must hold `<`, and the greedy name group is
tried longest first. -/
def tryMatchAt (s : List Char) (p : Nat) :
    Option (List Char × List Char × Nat) :=
  if s.get? p = some '<' then
    let run := ((s.drop (p + 1)).takeWhile isNameChar).length
    if run = 0 then none
    else (List.range run).findSome? (tryNameLen s p run)
  else none

/-- Embeds `FindAnyBracketedText` (src lines 448-456):
`re.search(r"^(.*?)<([a-zA-Z0-9 ]+)[^>]*?>(.*?)<\/\2>", s, re.DOTALL)`,
returning (leading text, tag name, contents, remainder after the match), or
`(s, "", "", "")` when the pattern does not match.  The lazy leading group
tries start positions in ascending order. -/
def FindAnyBracketedText (s : List Char) :
    List Char × List Char × List Char × List Char :=
  match (List.range (s.length + 1)).findSome?
      (fun p => (tryMatchAt s p).map (fun x => (p, x))) with
  | some (p, name, contents, matchEnd) =>
    (s.take p, name, contents, s.drop matchEnd)
  | none => (s, [], [], [])

/-- The end of `Node.Resolve` (src lines 322-324): if at least one child was
produced the value becomes the ordered child list, otherwise it stays the
node's original text. -/
def finishNode (key orig : List Char) (out : List Node) : Node :=
  if out.isEmpty then Node.mk key (some orig) none
  else Node.mk key none (some out)

/-- The `while len(text) > 0` loop of `Node.Resolve` (src lines 300-324),
with fuel (`none` = fuel ran out): `orig` is the node's value on entry,
`cur` the loop's remaining text, `out` the accumulated children.  Each
extracted child is itself resolved recursively; the branch that stores
leftover trailing text (src lines 310-313) is kept although the source's
extractor can never produce a match with an empty tag name. -/
def resolveAux (fuel : Nat) (key orig cur : List Char) (out : List Node) :
    Option Node :=
  match fuel with
  | 0 => none
  | f + 1 =>
    if cur.isEmpty then some (finishNode key orig out)
    else
      match FindAnyBracketedText cur with
      | (_lead, bracket, contents, trail) =>
        if bracket.isEmpty && contents.isEmpty then
          if !trail.isEmpty then some (Node.mk key (some trail) none)
          else some (finishNode key orig out)
        else
          match resolveAux f bracket contents contents [] with
          | none => none
          | some child => resolveAux f key orig trail (out ++ [child])

/-- `Node(key, text).Resolve()` — the only way `Resolve` is invoked by the
source (src lines 62-63 and 316-317): resolve a freshly constructed text
node. -/
def resolveStr (fuel : Nat) (key text : List Char) : Option Node :=
  resolveAux fuel key text text []

/-- Modelled from the spec: `ParmDict` key normalization (HelpersPackage,
not in src/).  The dictionaries are created with `CaseInsensitiveCompare`
and `IgnoreSpacesCompare` (src lines 84-86); per the spec, keys compare
case-insensitively and whitespace-insensitively. -/
def pdNorm (s : List Char) : List Char :=
  toLowerL (s.filter (fun c => !(isPyWs c)))

/-- Modelled from the spec: lookup in a `ParmDict` of string values
(an attribute record), `none` for an absent key (the source tests the
result against `None`, src line 234). -/
def pdGet (d : List (List Char × List Char)) (k : List Char) :
    Option (List Char) :=
  (d.find? (fun kv => decide (pdNorm kv.1 = pdNorm k))).map Prod.snd

/-- An attribute record: one person's row of the people table. -/
abbrev Record := List (List Char × List Char)

/-- Modelled from the spec: lookup in the `people` `ParmDict` keyed by full
name with `ParmDict` values (src lines 84-93). -/
def tableGet (t : List (List Char × Record)) (k : List Char) :
    Option Record :=
  (t.find? (fun kv => decide (pdNorm kv.1 = pdNorm k))).map Prod.snd

/-- The people table: full name to attribute record. -/
abbrev Table := List (List Char × Record)

/-- The inner `for subatt in attribute.List` loop of the schedule expansion
(src lines 190-203): fold over the item's children, the last assignment to
each of title/participants/precis/equipment winning. -/
def renderItemFields (item : Node) :
    List Char × List Char × List Char × List Char :=
  item.ListC.foldl
    (fun st subatt =>
      let (t, pa, pr, q) := st
      if subatt.key = "title".toList then (subatt.Text, pa, pr, q)
      else if subatt.key = "participants".toList then (t, subatt.Text, pr, q)
      else if subatt.key = "precis".toList then (t, pa, subatt.Text, q)
      else if subatt.key = "equipment".toList then (t, pa, pr, subatt.Text)
      else st)
    ([], [], [], [])

/-- Formatting of one schedule item (src lines 204-216): HTML mode wraps
the fields in paragraph tags; plain-text mode emits title, participants and
the optional equipment/precis lines. -/
def renderItem (mailFormat : List Char) (item : Node) : List Char :=
  let (title, participants, precis, equip) := renderItemFields item
  if mailFormat = "html".toList then
    let it := "<p><b>".toList ++ title ++ "</b></p>\n<p>".toList ++
      participants ++ "</p>\n".toList
    let it := if equip.length > 0 then
        it ++ "<p>equipment: ".toList ++ equip ++ "</p>\n".toList else it
    if precis.length > 0 then it ++ "<p>".toList ++ precis ++ "</p>\n".toList
    else it
  else
    let it := title ++ "\n".toList ++ participants ++ "\n".toList
    let it := if equip.length > 0 then
        it ++ "equipment: ".toList ++ equip ++ "\n".toList else it
    if precis.length > 0 then it ++ precis ++ "\n".toList else it

/-- One pass of the `for attribute in person.List` loop of the schedule
expansion (src lines 187-222): children whose key is not `"item"` leave the
accumulated text unchanged; an item is rendered and followed by the HTML
separator `<p>` in HTML mode and a newline. -/
def scheduleStep (mailFormat : List Char) (items : List Char)
    (attrNode : Node) : List Char :=
  if attrNode.key = "item".toList then
    items ++ renderItem mailFormat attrNode ++
      (if mailFormat = "html".toList then "<p>".toList else []) ++
      "\n".toList
  else items

/-- The `[[schedule]]` expansion (src lines 186-222): iterate the record's
children in order, rendering every child whose key is `"item"`. -/
def renderSchedule (mailFormat : List Char) (person : Node) : List Char :=
  person.ListC.foldl (scheduleStep mailFormat) []

/-- Python `tag.split("|")` unpacked into three parts, used only under the
guard `tag.count("|") == 2` (src lines 230-231). -/
def splitPipe2 (l : List Char) : List Char × List Char × List Char :=
  let a := l.takeWhile (fun c => !(c == '|'))
  let r1 := (l.dropWhile (fun c => !(c == '|'))).drop 1
  let b := r1.takeWhile (fun c => !(c == '|'))
  let c := (r1.dropWhile (fun c => !(c == '|'))).drop 1
  (a, b, c)

/-- Result of the `while thismail.find("[[") >= 0` substitution loop
(src lines 175-239): `timeout` is fuel exhaustion (the source loop need
not terminate), `ok` the loop falling through with the final text,
`abortMissing` the fatal `return` on a column missing from the record
(src lines 234-236), `crash` the `TypeError` of subscripting the `None`
returned for a full name absent from `people`. -/
inductive RRes where
  | timeout
  | ok (s : List Char)
  | abortMissing (tag : List Char)
  | crash
deriving DecidableEq

/-- Embeds the substitution loop over the email body (src lines 174-239).
`loc2` is relative to `loc1` exactly as in the source; when no `]]` follows,
the body of the loop does nothing and the loop repeats on unchanged text. -/
def renderLoop (fuel : Nat) (mailFormat : List Char) (people : Table)
    (fullname : List Char) (person : Node) (thismail : List Char) : RRes :=
  match fuel with
  | 0 => RRes.timeout
  | f + 1 =>
    match findSubIdx "[[".toList thismail with
    | none => RRes.ok thismail
    | some loc1 =>
      match findSubIdx "]]".toList (thismail.drop loc1) with
      | none => renderLoop f mailFormat people fullname person thismail
      | some loc2 =>
        let start := thismail.take loc1
        let tag := toLowerL ((thismail.drop (loc1 + 2)).take (loc2 - 2))
        let trail := thismail.drop (loc1 + loc2 + 2)
        if tag = "schedule".toList then
          renderLoop f mailFormat people fullname person
            (start ++ renderSchedule mailFormat person ++ trail)
        else
          let (pfx, tag2, sfx) :=
            if tag.count '|' = 2 then splitPipe2 tag else ([], tag, [])
          match tableGet people fullname with
          | none => RRes.crash
          | some rec0 =>
            match pdGet rec0 tag2 with
            | none => RRes.abortMissing tag2
            | some val =>
              let val' := if val.length > 0 then pfx ++ val ++ sfx else val
              renderLoop f mailFormat people fullname person
                (start ++ val' ++ trail)

/-- Result of the whole output loop of `main` (src lines 150-244): the
accumulated output-file content, with `aborted` the fatal stop of the
batch on a missing column (the file keeps what was already written). -/
inductive BRes where
  | timeout
  | crash
  | aborted (out : List Char)
  | done (out : List Char)
deriving DecidableEq

/-- Embeds the `for person in mainNode` loop of `main` (src lines 152-244):
filter each record by the selection criterion, write the opening
`<email-message>`/`<email-address>`/`<content>` tags, render the body, and
write the closing tags; a missing column aborts the whole batch, keeping
the output written so far. -/
def runPersons (fuel : Nat) (mailFormat : List Char) (people : Table)
    (header selectionvalue emailbody : List Char) (persons : List Node)
    (out : List Char) : BRes :=
  match persons with
  | [] => BRes.done out
  | person :: rest =>
    match person.getStr "full name".toList with
    | none => BRes.crash
    | some fullname =>
      match tableGet people fullname with
      | none =>
        runPersons fuel mailFormat people header selectionvalue emailbody
          rest out
      | some peopledata =>
        match pdGet peopledata header with
        | none =>
          runPersons fuel mailFormat people header selectionvalue emailbody
            rest out
        | some headervalue =>
          if toLowerL (pyStrip headervalue) ≠ toLowerL selectionvalue then
            runPersons fuel mailFormat people header selectionvalue emailbody
              rest out
          else
            match person.getStr "email".toList with
            | none => BRes.crash
            | some emailAddr =>
              let out1 := out ++ "<email-message>".toList ++
                "<email-address>".toList ++ emailAddr ++
                "</email-address>".toList ++ "<content>".toList
              match renderLoop fuel mailFormat people fullname person
                  emailbody with
              | RRes.timeout => BRes.timeout
              | RRes.crash => BRes.crash
              | RRes.abortMissing _ => BRes.aborted out1
              | RRes.ok mail =>
                runPersons fuel mailFormat people header selectionvalue
                  emailbody rest
                  (out1 ++ mail ++ "\n".toList ++ "</content>".toList ++
                    "</email-message>\n\n\n".toList)

/-- Embeds the output production of `main` from the opening of the output
file (src line 150): the file starts with the timestamp comment line
(`print(f"# {datetime.now()}\n")`, a parameter here), then the person
loop runs. -/
def runBatch (fuel : Nat) (mailFormat : List Char) (people : Table)
    (header selectionvalue emailbody ts : List Char) (persons : List Node) :
    BRes :=
  runPersons fuel mailFormat people header selectionvalue emailbody persons
    ("# ".toList ++ ts ++ "\n\n".toList)

/-- Modelled from the spec: `FindBracketedText` from HelpersPackage (not in
src/), as used at src lines 115-131: the content of the first
`<tag>...</tag>` element and the input with that element removed, or
`("", s)` when the element is absent — so an element that is present with
empty content and an absent element both return `""`. -/
def findBracketedText (tag s : List Char) : List Char × List Char :=
  let openT := '<' :: (tag ++ ['>'])
  let closeT := '<' :: '/' :: (tag ++ ['>'])
  match findSubIdx openT s with
  | none => ([], s)
  | some i =>
    let afterOpen := s.drop (i + openT.length)
    match findSubIdx closeT afterOpen with
    | none => ([], s)
    | some j =>
      (afterOpen.take j, s.take i ++ afterOpen.drop (j + closeT.length))

/-- The fatal template-validation errors of src lines 115-128. -/
inductive TemplateErr where
  | noSelect
  | noHeader
  | noValue
deriving DecidableEq

/-- Embeds the selection-criterion parsing of `main` (src lines 115-128):
extract `<select>`, then `<header>` (stripped and lowercased, must be
non-empty) and `<value>` (stripped, must be non-empty — the source aborts
when the stripped value is empty, src lines 126-128). -/
def parseSelection (template : List Char) :
    Except TemplateErr (List Char × List Char) :=
  let (selection, _) := findBracketedText "select".toList template
  if selection.length = 0 then Except.error TemplateErr.noSelect
  else
    let (header0, selection1) := findBracketedText "header".toList selection
    let header := toLowerL (pyStrip header0)
    if header.length = 0 then Except.error TemplateErr.noHeader
    else
      let (value0, _) := findBracketedText "value".toList selection1
      let selectionvalue := pyStrip value0
      if selectionvalue.length = 0 then Except.error TemplateErr.noValue
      else Except.ok (header, selectionvalue)

/-! Concrete scenario used by several claims: the person "Ann" with email
"ann@x.com" and one schedule item titled "Panel", her attribute record, and
a record with an empty full-name value. -/

def annRec : Record := [("full name".toList, "Ann".toList),
  ("track".toList, "Tech".toList)]

def annTable : Table := [("Ann".toList, annRec)]

def emptyValRec : Record := [("full name".toList, [])]

def emptyValTable : Table := [("X".toList, emptyValRec)]

def annPerson : Node := Node.mk "person".toList none (some
  [Node.mk "full name".toList (some "Ann".toList) none,
   Node.mk "email".toList (some "ann@x.com".toList) none,
   Node.mk "item".toList none
     (some [Node.mk "title".toList (some "Panel".toList) none])])

/-- C1: the claim states that `CheckBalance` returns failure on every
document with exactly one unmatched opening or closing delimiter, in
particular when the unmatched opening delimiter is the last text of the
document.  The code violates this: the scan loop `while s:` exits as soon
as the remaining text is empty, before the trailing-unmatched-opens check
(src line 340) can run, so the document `"<a>"` — a single unmatched
opening tag ending the document — is accepted; a document consisting of a
single unmatched closing `]]` is accepted as well, because the scanner
never produces a `]]` token. -/
theorem c1_checkBalance_accepts_unmatched_delims :
    CheckBalance "<a>".toList = some true ∧
      CheckBalance " ]] ".toList = some true := ⟨rfl, rfl⟩

/-- C4: the claim states that a template whose `<select>` block contains a
`<header>` element and a `<value>` element with empty content is accepted.
The code violates this: the stripped selection value is required to be
non-empty (src lines 125-128), so the run aborts on `<value></value>` —
although the source's own comment (src line 114) says the value may be
empty. -/
theorem c4_parseSelection_rejects_empty_value :
    parseSelection
        ("<select><header>track</header><value></value></select>" ++
          "<email body>B</email body>").toList =
      Except.error TemplateErr.noValue := rfl

/-- C5 counterexample: rendering the token `"Hello, |full name|!"` for a
record whose full name value is `"Ann"` yields `"hello, Ann!"`, not the
claimed `"Hello, Ann!"`: the whole token, decoration included, is
lowercased (src line 180) before being split at the `|` separators. -/
theorem c5_cex_decoration_lowercased :
    renderLoop 3 "text".toList annTable "Ann".toList annPerson
        "[[Hello, |full name|!]]".toList = RRes.ok "hello, Ann!".toList ∧
      "hello, Ann!".toList ≠ "Hello, Ann!".toList := ⟨rfl, by decide⟩

/-- C5 amended: rendering the token `"Hello, |full name|!"` for a record
whose full name value is `"Ann"` yields `"hello, Ann!"` — the prefix and
suffix are emitted around the looked-up value but lowercased, because the
whole token is lowercased before the split — and for a record whose value
in that column is empty it yields `""` (prefix and suffix suppressed
together). -/
theorem c5_decoration_rendering :
    renderLoop 3 "text".toList annTable "Ann".toList annPerson
        "[[Hello, |full name|!]]".toList = RRes.ok "hello, Ann!".toList ∧
      renderLoop 3 "text".toList emptyValTable "X".toList annPerson
        "[[Hello, |full name|!]]".toList = RRes.ok [] := ⟨rfl, rfl⟩

/-- C3 counterexample: when a substitution token's column name is absent
from the attribute schema the batch aborts, but output content does exist
after the abort — the timestamp line and the opening
`<email-message>`/`<email-address>`/`<content>` tags of the current message
were already written (src lines 151, 167-170) — refuting the claim's "no
output file content exists after the abort". -/
theorem c3_cex_abort_leaves_partial_output :
    runBatch 5 "text".toList annTable "track".toList "Tech".toList
        "[[missing]]".toList "T".toList [annPerson, annPerson] =
      BRes.aborted ("# T\n\n<email-message>" ++
        "<email-address>ann@x.com</email-address><content>").toList ∧
      ("# T\n\n<email-message>" ++
        "<email-address>ann@x.com</email-address><content>").toList ≠
        ([] : List Char) := ⟨rfl, by decide⟩

/-- C3 amended: a substitution token whose column name is absent from the
attribute record aborts the whole batch — a hard stop, not a per-record
skip: with two qualifying records the second is never processed — but the
output written before the abort (the timestamp header line and the opening
tags of the current message) remains as output-file content. -/
theorem c3_abort_is_batch_stop_with_partial_output :
    runBatch 5 "text".toList annTable "track".toList "Tech".toList
        "[[missing]]".toList "T".toList [annPerson, annPerson] =
      BRes.aborted ("# T\n\n<email-message>" ++
        "<email-address>ann@x.com</email-address><content>").toList := rfl

/-- C10: the claim states that the substitution loop terminates on every
body, including one containing `[[` with no subsequent `]]`.  The code
violates this: when no `]]` follows, the loop body changes nothing
(src line 178 guards the whole body) and `thismail.find("[[") >= 0` stays
true, so the loop never terminates — here, no amount of fuel makes the
embedded loop finish on the body `"x [[name"`, whatever the format, table,
full name and record. -/
theorem c10_renderLoop_diverges_on_unclosed_token :
    ∀ (fuel : Nat) (mf : List Char) (people : Table) (fn : List Char)
      (person : Node),
      renderLoop fuel mf people fn person "x [[name".toList =
        RRes.timeout := by
  intro fuel mf people fn person
  induction fuel with
  | zero => rfl
  | succ f ih => exact ih

/-- If dropping `k` elements of `l` uncovers `a`, then `a` is the element
of `l` at index `k`. -/
theorem get?_of_drop_cons : ∀ (l : List Char) (k : Nat) (a : Char)
    (t : List Char), l.drop k = a :: t → l.get? k = some a := by
  intro l
  induction l with
  | nil => intro k a t h; simp at h
  | cons x xs ih =>
    intro k a t h
    cases k with
    | zero =>
      simp only [List.drop] at h
      injection h with h1 _
      simp [h1]
    | succ k => simpa using ih k a t (by simpa using h)

/-- A match of the angle-bracket regex of `LocateNextDelimiter` always ends
just after a `>`. -/
theorem m1Match_ends_gt (s g : List Char) (e : Nat)
    (h : m1Match s = some (g, e)) : s.get? (e - 1) = some '>' := by
  simp only [m1Match] at h
  split at h
  · exact absurd h (by simp)
  · rename_i i hi
    split at h
    · rename_i tl heq
      rw [Option.some.injEq, Prod.mk.injEq] at h
      obtain ⟨hg, he⟩ := h
      rw [List.drop_drop] at heq
      have hget := get?_of_drop_cons s _ _ _ heq
      have harith : e - 1 =
          i + 1 + ((s.drop (i + 1)).takeWhile angleFree).length := by
        omega
      rw [harith]
      exact hget
    · exact absurd h (by simp)

/-- A match of the double-bracket regex of `LocateNextDelimiter` always
ends just after a `]`. -/
theorem m2Match_ends_rb (s : List Char) (e : Nat)
    (h : m2Match s = some e) : s.get? (e - 1) = some ']' := by
  simp only [m2Match] at h
  split at h
  · exact absurd h (by simp)
  · rename_i i hi
    split at h
    · rename_i c tl heq
      split at h
      · rw [Option.some.injEq] at h
        have h3 : s.drop (i + 3) = ']' :: tl := by
          have hc := congrArg (List.drop 3) heq
          rw [List.drop_drop] at hc
          simpa using hc
        have hget := get?_of_drop_cons s _ _ _ h3
        have harith : e - 1 = i + 3 := by omega
        rw [harith]
        exact hget
      · exact absurd h (by simp)
    · exact absurd h (by simp)

/-- C2: for every input on which both the angle-bracket regex and the
double-bracket regex of `LocateNextDelimiter` match, the delimiter whose
match ends strictly earliest is returned; the two matches can never end at
the same position (the angle match ends after `>`, the double-bracket match
after `]`), so the claim's tie-break — the angle-bracket delimiter on an
exact position tie — holds vacuously. -/
theorem c2_locateNextDelimiter_earliest_end :
    ∀ (s g : List Char) (e1 e2 : Nat),
      m1Match s = some (g, e1) → m2Match s = some e2 →
      (e1 < e2 → LocateNextDelimiter s = (g, s.drop e1)) ∧
      (e2 < e1 → LocateNextDelimiter s = ("[[".toList, s.drop e2)) ∧
      e1 ≠ e2 ∧
      (e1 = e2 → LocateNextDelimiter s = (g, s.drop e1)) := by
  intro s g e1 e2 h1 h2
  have hne : e1 ≠ e2 := by
    intro he
    have g1 := m1Match_ends_gt s g e1 h1
    have g2 := m2Match_ends_rb s e2 h2
    rw [he, g2] at g1
    exact absurd (Option.some.inj g1) (by decide)
  have hs : s.isEmpty = false := by
    cases s with
    | nil => simp [m1Match] at h1
    | cons a l => rfl
  refine ⟨?_, ?_, hne, ?_⟩
  · intro hlt
    simp [LocateNextDelimiter, hs, h1, h2, hlt]
  · intro hlt
    have : ¬ e1 < e2 := by omega
    simp [LocateNextDelimiter, hs, h1, h2, this]
  · intro he
    exact absurd he hne

/-- C2 witness: on `"ab<cd>[[x]z"` the angle match `<cd>` ends at 6 and the
double-bracket match `[[x]` ends at 10, so the angle delimiter `cd` is
returned with the remainder after position 6. -/
theorem c2_witness_concrete :
    LocateNextDelimiter "ab<cd>[[x]z".toList =
      ("cd".toList, "[[x]z".toList) := by
  have h := c2_locateNextDelimiter_earliest_end "ab<cd>[[x]z".toList
    "cd".toList 6 10 (by decide) (by decide)
  exact h.1 (by decide)

/-- Definition following the claim's words (C7): the tag content truncated
at the first whitespace character. -/
def truncAtFirstWs (l : List Char) : List Char :=
  l.takeWhile (fun c => !(isPyWs c))

/-- C7 counterexample: the opening tag `<ab c>` makes the balance checker
push the full content `"ab c"`, not the claimed truncation `"ab"` — the
truncation regex `^([a-zA-Z0-9])\s` captures exactly one character, so
names longer than one character are never truncated. -/
theorem c7_cex_two_char_name_not_truncated :
    pushName "ab c".toList = "ab c".toList ∧
      truncAtFirstWs "ab c".toList = "ab".toList ∧
      pushName "ab c".toList ≠ truncAtFirstWs "ab c".toList :=
  ⟨rfl, rfl, by decide⟩

/-- C7 amended: the name pushed on the nesting stack is truncated at the
first whitespace only when the tag content starts with a single
alphanumeric character followed by whitespace (so `<a href=...>` pushes
`a`); when the second character is not whitespace — in particular for every
tag name of two or more characters followed by attributes — the full tag
content, attributes included, is pushed; one-character-or-empty contents
are pushed as they are. -/
theorem c7_pushName_truncates_only_single_char_names :
    (∀ (c w : Char) (rest : List Char), c.isAlphanum = true →
      isPyWs w = true → pushName (c :: w :: rest) = [c]) ∧
    (∀ (a b : Char) (rest : List Char), isPyWs b = false →
      pushName (a :: b :: rest) = a :: b :: rest) ∧
    (∀ d : List Char, d.length ≤ 1 → pushName d = d) := by
  refine ⟨?_, ?_, ?_⟩
  · intro c w rest hc hw
    simp [pushName, hc, hw]
  · intro a b rest hb
    simp [pushName, hb]
  · intro d hd
    match d with
    | [] => rfl
    | [x] => rfl
    | x :: y :: t => simp at hd

/-- C7 witness: `<a href=x>` pushes `a`; `<ab c>` pushes `ab c` in full;
the attribute-free `<x>` pushes `x`. -/
theorem c7_witness_concrete :
    pushName ('a' :: ' ' :: "href=x".toList) = ['a'] ∧
      pushName "ab c".toList = "ab c".toList ∧
      pushName "x".toList = "x".toList := by
  have h := c7_pushName_truncates_only_single_char_names
  exact ⟨h.1 'a' ' ' "href=x".toList (by decide) (by decide),
    h.2.1 'a' 'b' " c".toList (by decide), h.2.2 "x".toList (by decide)⟩

/-- Definition following the claim's words (C8): lookup on a node's
children comparing both the stored child key and the queried key
case-insensitively, returning the text of the first match. -/
def claimChildLookup (n : Node) (index : List Char) : Option (List Char) :=
  (n.ListC.find? (fun c => decide (toLowerL c.key = toLowerL index))).map
    Node.Text

def c8Node : Node :=
  Node.mk "p".toList none (some [Node.mk "A".toList (some "t".toList) none])

/-- C8 counterexample: a child stored under the key `"A"` is never found —
`Node.__getitem__` lowercases only the queried key and compares it with the
stored key as stored (src line 273), so the lookup of `"A"` (lowercased to
`"a"`) misses the child whose key is `"A"`, while the claimed
case-insensitive-on-both-sides lookup finds it. -/
theorem c8_cex_stored_key_not_lowercased :
    Node.getStr c8Node "A".toList = none ∧
      claimChildLookup c8Node "A".toList = some "t".toList := ⟨rfl, rfl⟩

/-- Lookup with the query lowercased agrees with lookup lowercasing both
sides as soon as every stored key is already lowercase. -/
theorem find?_lower_congr : ∀ (l : List Node) (k : List Char),
    (∀ c ∈ l, toLowerL c.key = c.key) →
    l.find? (fun c => decide (c.key = toLowerL k)) =
      l.find? (fun c => decide (toLowerL c.key = toLowerL k)) := by
  intro l k h
  induction l with
  | nil => rfl
  | cons x xs ih =>
    have hx : toLowerL x.key = x.key := h x (by simp)
    have hxs : ∀ c ∈ xs, toLowerL c.key = c.key := fun c hc =>
      h c (by simp [hc])
    simp only [List.find?, hx]
    cases hb : decide (x.key = toLowerL k) with
    | true => rfl
    | false => exact ih hxs

/-- C8 amended: looking up a string key on a node's children returns the
text (not the child) of the first child whose stored key equals the
lowercased query; only the query is case-normalized, so the lookup behaves
as the claimed doubly case-insensitive lookup exactly on nodes whose stored
child keys are already lowercase. -/
theorem c8_getStr_lowercases_query_only :
    ∀ (n : Node) (k : List Char),
      (∀ c ∈ n.ListC, toLowerL c.key = c.key) →
      Node.getStr n k = claimChildLookup n k := by
  intro n k h
  unfold Node.getStr claimChildLookup
  rw [find?_lower_congr n.ListC k h]

def c8LowNode : Node :=
  Node.mk "p".toList none (some [Node.mk "a".toList (some "t".toList) none])

/-- C8 witness: on a node whose single child key `"a"` is lowercase, the
source lookup of `"A"` agrees with the claimed case-insensitive lookup. -/
theorem c8_witness_concrete :
    Node.getStr c8LowNode "A".toList = claimChildLookup c8LowNode "A".toList :=
  c8_getStr_lowercases_query_only c8LowNode "A".toList (by decide)

/-- Children that are not items leave the schedule accumulator unchanged. -/
theorem foldl_scheduleStep_no_item :
    ∀ (fmt : List Char) (l : List Node) (acc : List Char),
      (∀ n ∈ l, n.key ≠ "item".toList) →
      l.foldl (scheduleStep fmt) acc = acc := by
  intro fmt l
  induction l with
  | nil => intro acc h; rfl
  | cons x xs ih =>
    intro acc h
    have hx : x.key ≠ "item".toList := h x (by simp)
    have hxs : ∀ n ∈ xs, n.key ≠ "item".toList := fun n hn =>
      h n (by simp [hn])
    simp only [List.foldl, scheduleStep, if_neg hx]
    exact ih acc hxs

/-- C6: in plain-text mode (any mail format other than `"html"`), rendering
the `schedule` token for a record with zero item children yields the empty
string, and for a record with one item child whose only field is a title
`t` yields exactly `t ++ "\n\n\n"` — the title line, the empty participants
line, no equipment or precis lines, and the item separator newline. -/
theorem c6_schedule_plain_zero_and_single_title :
    ∀ (fmt : List Char), fmt ≠ "html".toList →
      (∀ (k : List Char) (l : List Node),
        (∀ n ∈ l, n.key ≠ "item".toList) →
        renderSchedule fmt (Node.mk k none (some l)) = []) ∧
      (∀ (k t : List Char) (pre post : List Node),
        (∀ n ∈ pre, n.key ≠ "item".toList) →
        (∀ n ∈ post, n.key ≠ "item".toList) →
        renderSchedule fmt (Node.mk k none (some (pre ++
          Node.mk "item".toList none
            (some [Node.mk "title".toList (some t) none]) :: post))) =
          t ++ "\n\n\n".toList) := by
  intro fmt hfmt
  constructor
  · intro k l h
    exact foldl_scheduleStep_no_item fmt l [] h
  · intro k t pre post hpre hpost
    unfold renderSchedule
    show (pre ++ _ :: post).foldl (scheduleStep fmt) [] = _
    rw [List.foldl_append, foldl_scheduleStep_no_item fmt pre [] hpre]
    simp only [List.foldl]
    rw [show scheduleStep fmt []
        (Node.mk "item".toList none
          (some [Node.mk "title".toList (some t) none])) =
        t ++ "\n\n\n".toList from ?_]
    · exact foldl_scheduleStep_no_item fmt post _ hpost
    · simp only [scheduleStep, Node.key, if_pos, if_neg hfmt,
        renderItem, renderItemFields, Node.ListC, Node.childVal,
        Option.getD, List.foldl, Node.Text, Node.textVal]
      simp [if_neg hfmt]

/-- C6 witness: with format `"text"`, a record with no children renders to
the empty string and a record with one item titled `"Panel"` renders to
`"Panel\n\n\n"`. -/
theorem c6_witness_concrete :
    renderSchedule "text".toList (Node.mk "person".toList none (some [])) =
        [] ∧
      renderSchedule "text".toList (Node.mk "person".toList none (some
        [Node.mk "item".toList none
          (some [Node.mk "title".toList (some "Panel".toList) none])])) =
        "Panel\n\n\n".toList := by
  have h := c6_schedule_plain_zero_and_single_title "text".toList (by decide)
  refine ⟨h.1 "person".toList [] (by simp), ?_⟩
  have h2 := h.2 "person".toList "Panel".toList [] [] (by simp) (by simp)
  simpa using h2

/-- The node built at the end of the resolution loop is well-formed and is
either the leaf the node started as or the interior node of the collected
children. -/
theorem finishNode_wf (key orig : List Char) (out : List Node)
    (hout : ∀ c ∈ out, WF c) :
    WF (finishNode key orig out) ∧
      ((∃ t, finishNode key orig out = Node.mk key (some t) none) ∨
        (∃ l, finishNode key orig out = Node.mk key none (some l))) := by
  unfold finishNode
  cases out with
  | nil => exact ⟨WF.leaf key orig, Or.inl ⟨orig, rfl⟩⟩
  | cons x xs =>
    simp only [List.isEmpty, if_neg]
    exact ⟨WF.interior key (x :: xs) hout, Or.inr ⟨x :: xs, rfl⟩⟩

/-- Every node the resolution loop returns is well-formed, provided the
already-collected children are. -/
theorem resolveAux_wf :
    ∀ (fuel : Nat) (key orig cur : List Char) (out : List Node) (n : Node),
      (∀ c ∈ out, WF c) → resolveAux fuel key orig cur out = some n →
      WF n ∧ ((∃ t, n = Node.mk key (some t) none) ∨
        (∃ l, n = Node.mk key none (some l))) := by
  intro fuel
  induction fuel with
  | zero =>
    intro key orig cur out n hout h
    exact absurd h (by simp [resolveAux])
  | succ f ih =>
    intro key orig cur out n hout h
    rw [resolveAux] at h
    split at h
    · rw [Option.some.injEq] at h
      rw [← h]
      exact finishNode_wf key orig out hout
    · split at h
      · split at h
        · split at h
          · rw [Option.some.injEq] at h
            rw [← h]
            rename_i trailNE
            exact ⟨WF.leaf key _, Or.inl ⟨_, rfl⟩⟩
          · rw [Option.some.injEq] at h
            rw [← h]
            exact finishNode_wf key orig out hout
        · split at h
          · exact absurd h (by simp)
          · rename_i child hchild
            have hcwf := (ih _ _ _ [] child (by simp) hchild).1
            refine ih key orig _ (out ++ [child]) n ?_ h
            intro c hc
            rcases List.mem_append.mp hc with hc | hc
            · exact hout c hc
            · rw [List.mem_singleton.mp hc]
              exact hcwf

/-- C9: every markup node is a leaf (a raw text value) or an interior node
(an ordered child list), never both and never neither, hereditarily: the
invariant holds after construction from a text span, and `Resolve` — always
invoked on a freshly constructed text node, at the root as at every
recursive call — returns a well-formed node whose value is either leaf text
or, wholesale, the ordered list of resolved children. -/
theorem c9_node_leaf_or_interior :
    (∀ (k t : List Char), WF (Node.ofText k t)) ∧
      (∀ (fuel : Nat) (k s : List Char) (n : Node),
        resolveStr fuel k s = some n →
        WF n ∧ ((∃ t, n = Node.mk k (some t) none) ∨
          (∃ l, n = Node.mk k none (some l)))) := by
  constructor
  · intro k t
    exact WF.leaf k t
  · intro fuel k s n h
    exact resolveAux_wf fuel k s s [] n (by simp) h

/-- C9 witness: resolving the document `"<a>x</a>"` under the root key
`"Main"` yields the well-formed interior node with the single leaf child
`a ↦ "x"`. -/
theorem c9_witness_concrete :
    WF (Node.mk "Main".toList none
        (some [Node.mk "a".toList (some "x".toList) none])) ∧
      ((∃ t, Node.mk "Main".toList none
          (some [Node.mk "a".toList (some "x".toList) none]) =
          Node.mk "Main".toList (some t) none) ∨
        (∃ l, Node.mk "Main".toList none
          (some [Node.mk "a".toList (some "x".toList) none]) =
          Node.mk "Main".toList none (some l))) :=
  c9_node_leaf_or_interior.2 3 "Main".toList "<a>x</a>".toList _ rfl
